import Mathlib

/-!
Shallow embedding of the core pipeline of `src/backend/Stock_Functions.py`
(and the precision computation of `src/backend/app.py`).

Modelling conventions:
* a pandas float cell that may be NaN is `Option ℚ` (`none` = NaN);
* dates are `Nat` (days since an arbitrary epoch), ascending means `· ≤ ·`;
* the hard-coded date floor `"2000-01-01"` of `clean_data` is an explicit
  `Nat` parameter `floor`;
* the classifier (`RandomForestClassifier`) is abstract: `model.fit` on a
  training frame followed by `predict_proba` on a row is a function
  `C : List FRow → FRow → ℚ` (sklearn's `fit` fully resets the estimator's
  state, so the fitted model is a function of the training data alone; the
  selection of the predictor columns is folded into `C`);
* `pd.concat` applied to an empty list raises `ValueError`; a fallible
  result is `Option`, with `none` for the raising branch.
-/

namespace StockFunctions

/-- One raw daily bar; the core only reads `{date, close}`. -/
structure Bar where
  date : Nat
  close : ℚ
  deriving Repr, DecidableEq

/-- One row of the cleaned series: `{Date, Close, Tomorrow, Target}`.
`tomorrow` is `none` for the final bar (NaN from `shift(-1)`). -/
structure CleanedRow where
  date : Nat
  close : ℚ
  tomorrow : Option ℚ
  target : Nat
  deriving Repr, DecidableEq

/-- Pandas `(data["Tomorrow"] > data["Close"]).astype(int)` on one row:
a comparison against NaN is `False`, so a `none` tomorrow yields `0`. -/
def targetOf (tomorrow : Option ℚ) (close : ℚ) : Nat :=
  match tomorrow with
  | none => 0
  | some t => if close < t then 1 else 0

/-- The `Tomorrow`/`Target` columns of `clean_data` (lines 35-36):
`Tomorrow = Close.shift(-1)`, `Target = (Tomorrow > Close).astype(int)`. -/
def addTomorrow : List Bar → List CleanedRow
  | [] => []
  | [b] => [⟨b.date, b.close, none, targetOf none b.close⟩]
  | b :: b2 :: rest =>
      ⟨b.date, b.close, some b2.close, targetOf (some b2.close) b.close⟩ ::
        addTomorrow (b2 :: rest)

/-- `clean_data` (lines 20-38): drop the unused columns, add `Tomorrow` and
`Target`, then keep only the rows with date on/after the floor
(`data.loc["2000-01-01":]`). No length check is performed anywhere. -/
def clean_data (floor : Nat) (bars : List Bar) : List CleanedRow :=
  (addTomorrow bars).filter (fun r => floor ≤ r.date)

/-- The rolling-window lengths of `add_predictors` (line 68):
`benchmarks = [2, 5, 21, 21*3, 252, 252*5]`. -/
def benchmarks : List Nat := [2, 5, 21, 21 * 3, 252, 252 * 5]

/-- Pandas `data.rolling(b).mean()` of the close column at position `k`:
the mean of the `b` closes ending at `k`, NaN (`none`) until `b`
observations exist (`min_periods` defaults to the window size). -/
def rollingMean (closes : List ℚ) (b k : Nat) : Option ℚ :=
  if b ≤ k + 1 then some (((closes.drop (k + 1 - b)).take b).sum / b) else none

/-- The value of column `Close_Ratio_b` at position `k` (line 75):
`data["Close"] / rolling_averages["Close"]`. A NaN rolling mean gives NaN;
pandas `0.0 / 0.0` is also NaN, while `c / 0.0` for `c ≠ 0` is `±inf`,
a defined float that `dropna` keeps — its (unused) numeric value is
approximated by the total division of `ℚ`. -/
def ratioAt (closes : List ℚ) (b k : Nat) : Option ℚ :=
  match rollingMean closes b k with
  | none => none
  | some m =>
      if m = 0 ∧ closes.getD k 0 = 0 then none
      else some (closes.getD k 0 / m)

/-- The feature row that `add_predictors` builds at position `k` of the
cleaned series: the cleaned columns plus `Close_Ratio_b` for each
benchmark `b`. -/
structure FRow where
  date : Nat
  close : ℚ
  tomorrow : Option ℚ
  target : Nat
  ratios : List (Option ℚ)
  deriving Repr, DecidableEq

/-- Row `k` of the frame after the `add_predictors` column loop. -/
def frowAt (rows : List CleanedRow) (k : Nat) : FRow :=
  ⟨(rows.getD k ⟨0, 0, none, 0⟩).date,
   (rows.getD k ⟨0, 0, none, 0⟩).close,
   (rows.getD k ⟨0, 0, none, 0⟩).tomorrow,
   (rows.getD k ⟨0, 0, none, 0⟩).target,
   benchmarks.map (fun b => ratioAt (rows.map (fun r => r.close)) b k)⟩

/-- `add_predictors` (lines 58-80): add one `Close_Ratio_b` column per
benchmark, then `dropna` on every column except `Tomorrow`. In the model
`Close` and `Target` are never NaN, so a row is dropped exactly when one
of its ratio columns is NaN. Returns the surviving rows and the new
predictor names. -/
def add_predictors (rows : List CleanedRow) : List FRow × List String :=
  (((List.range rows.length).map (frowAt rows)).filter
      (fun fr => fr.ratios.all Option.isSome),
    benchmarks.map (fun b => String.append "Close_Ratio_" (toString b)))

/-- One row of the frame returned by `predict`/`backtest`:
`{Date, Target, Predictions_60%}`. -/
structure PredictionRow where
  date : Nat
  target : Nat
  prediction : Nat
  deriving Repr, DecidableEq

/-- The hard-coded probability cutoff `0.60` of `predict` (lines 99-100),
written `mkRat 3 5` so that it evaluates inside the kernel. -/
def cutoff : ℚ := mkRat 3 5

/-- The cutoff step of `predict` (lines 98-100):
`preds_60[preds_60 >= 0.60] = 1; preds_60[preds_60 < 0.60] = 0`.
The cutoff is the parameter `t`; the code instantiates `t = cutoff`
(spec §4.4 treats it as configurable with default 0.60). -/
def threshold_decision (t p : ℚ) : Nat :=
  if t ≤ p then 1 else 0

/-- `predict` (lines 82-105): fit the model on `train`, take the
positive-class probability for each test row, threshold it at `cutoff`,
and return `{Date, Target, Predictions_60%}` rows in test order. -/
def predict (C : List FRow → FRow → ℚ) (train test : List FRow) :
    List PredictionRow :=
  test.map (fun r => ⟨r.date, r.target, threshold_decision cutoff (C train r)⟩)

/-- Python `range(start, n, step)` for `step > 0`: the window start
indices of the `backtest` loop (line 122). -/
def windowStarts (start n step : Nat) : List Nat :=
  (List.range ((n - start + step - 1) / step)).map (fun j => start + j * step)

/-- `backtest` (lines 107-130): for each window start `i`, train on
`data.iloc[0:i]` and test on `data.iloc[i:i+step]`, then
`pd.concat(all_predictions)` — which raises `ValueError` (`none`) when no
window was produced. -/
def backtest (C : List FRow → FRow → ℚ) (data : List FRow)
    (start step : Nat) : Option (List PredictionRow) :=
  let allPreds := (windowStarts start data.length step).map
    (fun i => predict C (data.take i) ((data.drop i).take step))
  if allPreds.isEmpty then none else some allPreds.flatten

/-- `precision_score(predictions["Target"], predictions["Predictions_60%"])`
as called in `app.py` line 79: sklearn with the default
`zero_division="warn"` returns `0.0` (plus a warning) when there is no
positive prediction; otherwise true positives over predicted positives. -/
def precision_score (ps : List PredictionRow) : ℚ :=
  let positives := ps.filter (fun r => r.prediction == 1)
  if positives.length = 0 then 0
  else ((positives.filter (fun r => r.target == 1)).length : ℚ) / positives.length

/-! Column-level state model for the mutation claim: pandas `del df[c]`
and `df[c] = …` mutate the frame in place, so each stage's effect on the
columns of the frame object passed to it is made explicit. -/

/-- Columns of the raw frame delivered by `get_stock_data`. -/
def rawCols : List String :=
  ["Open", "High", "Low", "Close", "Volume", "Dividends", "Stock Splits"]

/-- Columns that `clean_data` deletes in place (lines 29-34). -/
def droppedCols : List String :=
  ["Dividends", "Stock Splits", "Volume", "Low", "High", "Open"]

/-- Column state of the caller's frame after `clean_data` ran: the six
`del` statements remove columns in place and the two assignments append
`Tomorrow` and `Target` in place; only the final `data.loc[...].copy()`
is a fresh object. -/
def clean_data_colsAfter (cols : List String) : List String :=
  (cols.filter (fun c => ¬ droppedCols.contains c)) ++ ["Tomorrow", "Target"]

/-- The ratio column names added by `add_predictors`. -/
def ratioCols : List String :=
  benchmarks.map (fun b => String.append "Close_Ratio_" (toString b))

/-- Column state of the caller's frame after `add_predictors` ran: the
assignment `data[ratio_column] = …` (line 75) appends each missing ratio
column in place; only the `dropna` result is a fresh object. -/
def add_predictors_colsAfter (cols : List String) : List String :=
  cols ++ ratioCols.filter (fun c => ¬ cols.contains c)

/-- State of the caller's `data` frame after `backtest` ran: the loop only
reads `data.iloc` slices and copies them (`.copy()`, lines 123-124), so
the input frame is unchanged. -/
def backtest_dataAfter (data : List FRow) : List FRow := data

/-! Concrete instances used by witnesses. -/

/-- Concrete three-row feature sequence for exercising `backtest`. -/
def dataA : List FRow :=
  [⟨0, 1, none, 1, []⟩, ⟨1, 2, none, 0, []⟩, ⟨2, 3, none, 1, []⟩]

/-- Concrete classifier whose probability is the training-set size. -/
def classifierA : List FRow → FRow → ℚ := fun train _ => mkRat train.length 1

/-- The prediction rows `backtest classifierA dataA 1 1` emits. -/
def psA : List PredictionRow := (backtest classifierA dataA 1 1).getD []

/-- Concrete 1000-row feature sequence with ascending dates `0..999`. -/
def data1000 : List FRow := (List.range 1000).map (fun k => ⟨k, 0, none, 0, []⟩)

/-- Concrete 1260-row cleaned series with ascending dates and unit
closes. -/
def rows1260 : List CleanedRow := (List.range 1260).map (fun k => ⟨k, 1, none, 0⟩)

end StockFunctions

namespace StockFunctions

/-! Helper lemmas shared between the claim theorems. -/

/-- Dates are untouched by the `Tomorrow`/`Target` construction. -/
lemma addTomorrow_map_date :
    ∀ l : List Bar, (addTomorrow l).map (fun r => r.date) = l.map (fun b => b.date)
  | [] => rfl
  | [_] => rfl
  | b :: b2 :: rest => by
      simpa [addTomorrow] using addTomorrow_map_date (b2 :: rest)

/-- One cleaned row per input bar. -/
lemma addTomorrow_length (l : List Bar) : (addTomorrow l).length = l.length := by
  have h := congrArg List.length (addTomorrow_map_date l)
  simpa using h

/-- Characterization of a successful `backtest` run: the output is the
window-by-window concatenation, each window fitted on the prefix before
its test slice. -/
lemma backtest_eq_flatMap (C : List FRow → FRow → ℚ) (data : List FRow)
    (start step : Nat) (ps : List PredictionRow)
    (h : backtest C data start step = some ps) :
    ps = (windowStarts start data.length step).flatMap
      (fun i => predict C (data.take i) ((data.drop i).take step)) := by
  unfold backtest at h
  rw [List.flatMap_def]
  by_cases he :
      ((windowStarts start data.length step).map
        (fun i => predict C (data.take i) ((data.drop i).take step))).isEmpty
  · simp [he] at h
  · rw [if_neg he, Option.some.injEq] at h
    exact h.symm

lemma mkRat_half_le_cutoff : mkRat 1 2 ≤ cutoff := by decide

/-- `C7`: the decision with the default cutoff 0.60 is `1` exactly on
probabilities `≥ 0.60`; in particular the boundary probability maps to
`1`, and everything below maps to `0`. -/
theorem threshold_decision_default_cutoff (p : ℚ) (_h0 : 0 ≤ p) (_h1 : p ≤ 1) :
    (threshold_decision cutoff p = 1 ↔ cutoff ≤ p) ∧
    (threshold_decision cutoff p = 0 ↔ p < cutoff) ∧
    threshold_decision cutoff cutoff = 1 := by
  unfold threshold_decision
  by_cases hc : cutoff ≤ p
  · simp [hc, not_lt.mpr hc]
  · simp [hc, lt_of_not_le hc]

/-- Witness for `C7` at the probability `0.7`. -/
theorem threshold_decision_default_cutoff_witness :
    (threshold_decision cutoff (mkRat 7 10) = 1 ↔ cutoff ≤ mkRat 7 10) ∧
    (threshold_decision cutoff (mkRat 7 10) = 0 ↔ mkRat 7 10 < cutoff) ∧
    threshold_decision cutoff cutoff = 1 :=
  threshold_decision_default_cutoff (mkRat 7 10) (by decide) (by decide)

/-- `C9`: raising the cutoff can only turn a decision from 1 into 0,
and the count of 1-decisions at cutoff 0.60 is at most the count at
cutoff 0.50. -/
theorem threshold_decision_monotone :
    (∀ p t t' : ℚ, t ≤ t' → threshold_decision t' p ≤ threshold_decision t p) ∧
    (∀ probs : List ℚ,
      probs.countP (fun p => threshold_decision cutoff p == 1) ≤
        probs.countP (fun p => threshold_decision (mkRat 1 2) p == 1)) := by
  constructor
  · intro p t t' htt
    unfold threshold_decision
    by_cases h' : t' ≤ p
    · simp [h', le_trans htt h']
    · simp [h']
  · intro probs
    refine List.countP_mono_left ?_
    intro p _ hp
    unfold threshold_decision at hp ⊢
    by_cases hc : cutoff ≤ p
    · simp [le_trans mkRat_half_le_cutoff hc]
    · simp [hc] at hp

/-- Witness for `C9`: the monotonicity instance at `p = 0.55`,
`t = 0.50 ≤ t' = 0.60`, and the count comparison on a concrete
probability list. -/
theorem threshold_decision_monotone_witness :
    threshold_decision cutoff (mkRat 11 20) ≤
      threshold_decision (mkRat 1 2) (mkRat 11 20) ∧
    [mkRat 11 20, mkRat 9 10, mkRat 1 10].countP
        (fun p => threshold_decision cutoff p == 1) ≤
      [mkRat 11 20, mkRat 9 10, mkRat 1 10].countP
        (fun p => threshold_decision (mkRat 1 2) p == 1) :=
  ⟨threshold_decision_monotone.1 (mkRat 11 20) (mkRat 1 2) cutoff (by decide),
   threshold_decision_monotone.2 [mkRat 11 20, mkRat 9 10, mkRat 1 10]⟩

/-- `C3` counterexample: with 5 feature rows and `start = 5` the window
loop produces nothing and `pd.concat([])` raises `ValueError` (`none`);
the result is not the empty prediction sequence the claim promises. -/
theorem backtest_start_beyond_length_cex :
    backtest (fun _ _ => 0) (List.replicate 5 ⟨0, 0, none, 0, []⟩) 5 1 = none ∧
    (none : Option (List PredictionRow)) ≠ some [] := by
  exact ⟨rfl, by decide⟩

/-- `C3` amended: whenever `startIndex ≥ len(featureRows)` (with
`stepSize > 0`) the backtester produces no window and fails on
`pd.concat` of an empty list, instead of returning an empty sequence. -/
theorem backtest_start_beyond_length_raises (C : List FRow → FRow → ℚ)
    (data : List FRow) (start step : Nat) (hstep : 0 < step)
    (hlen : data.length ≤ start) :
    backtest C data start step = none := by
  have hz : data.length - start = 0 := Nat.sub_eq_zero_of_le hlen
  have hcount : (data.length - start + step - 1) / step = 0 := by
    rw [hz]
    exact Nat.div_eq_of_lt (by omega)
  unfold backtest windowStarts
  rw [hcount]
  simp

/-- Witness for `C3` amended at 3 rows, `start = 7`, `step = 2`. -/
theorem backtest_start_beyond_length_raises_witness :
    backtest (fun _ _ => 0) (List.replicate 3 ⟨0, 0, none, 0, []⟩) 7 2 = none :=
  backtest_start_beyond_length_raises _ _ 7 2 (by decide) (by decide)

/-- `C4` counterexample: a one-row sequence with no positive prediction,
on which `precision_score` silently reports `0` (sklearn's
`zero_division="warn"` default) instead of failing. -/
theorem precision_score_zero_positives_cex :
    precision_score [⟨0, 1, 0⟩] = 0 ∧
    ([⟨0, 1, 0⟩] : List PredictionRow).countP (fun r => r.prediction == 1) = 0 := by
  constructor
  · rfl
  · decide

/-- `C4` amended: with no positive prediction, `precision_score` returns
`0` as a score (it does not fail); with at least one positive
prediction it is true positives over predicted positives. -/
theorem precision_score_spec (ps : List PredictionRow) :
    ((∀ r ∈ ps, r.prediction ≠ 1) → precision_score ps = 0) ∧
    ((∃ r ∈ ps, r.prediction = 1) →
      precision_score ps =
        (ps.countP (fun r => r.target == 1 && r.prediction == 1) : ℚ) /
          (ps.countP (fun r => r.prediction == 1) : ℚ)) := by
  constructor
  · intro hnone
    unfold precision_score
    have hnil : ps.filter (fun r => r.prediction == 1) = [] := by
      rw [List.filter_eq_nil_iff]
      intro r hr
      simpa using hnone r hr
    simp [hnil]
  · intro ⟨r, hr, hpred⟩
    unfold precision_score
    have hmem : r ∈ ps.filter (fun r => r.prediction == 1) :=
      List.mem_filter.mpr ⟨hr, by simpa using hpred⟩
    have hne : (ps.filter (fun r => r.prediction == 1)).length ≠ 0 := by
      have := List.length_pos.mpr (List.ne_nil_of_mem hmem)
      omega
    rw [if_neg hne, List.filter_filter,
      List.countP_eq_length_filter, List.countP_eq_length_filter]

/-- Witness for `C4` amended: the zero-positives branch on a singleton
and the ratio branch on a two-row sequence. -/
theorem precision_score_spec_witness :
    precision_score [⟨0, 0, 0⟩] = 0 ∧
    precision_score [⟨0, 1, 1⟩, ⟨1, 0, 1⟩] =
      (([⟨0, 1, 1⟩, ⟨1, 0, 1⟩] : List PredictionRow).countP
          (fun r => r.target == 1 && r.prediction == 1) : ℚ) /
        (([⟨0, 1, 1⟩, ⟨1, 0, 1⟩] : List PredictionRow).countP
          (fun r => r.prediction == 1) : ℚ) :=
  ⟨(precision_score_spec [⟨0, 0, 0⟩]).1 (by decide),
   (precision_score_spec [⟨0, 1, 1⟩, ⟨1, 0, 1⟩]).2 ⟨⟨0, 1, 1⟩, by decide, rfl⟩⟩

/-- `C5` counterexample: a series of length 1 is cleaned without any
error — `clean_data` has no minimum-length check, so no
`InsufficientHistoryError` is possible. -/
theorem clean_data_length_one_cex :
    clean_data 0 [⟨0, 5⟩] = [⟨0, 5, none, 0⟩] := by decide

/-- `C5` amended: the cleaner performs no minimum-length check and never
fails; it returns one cleaned row per input bar on/after the floor, so
in particular a length-1 series yields a length-1 result, not an error. -/
theorem clean_data_no_minimum_length (floor : Nat) (bars : List Bar)
    (hdates : ∀ b ∈ bars, floor ≤ b.date) :
    (clean_data floor bars).length = bars.length := by
  unfold clean_data
  have hall : ∀ r ∈ addTomorrow bars, (floor ≤ r.date : Bool) = true := by
    intro r hr
    have hmem : r.date ∈ (addTomorrow bars).map (fun r => r.date) :=
      List.mem_map.mpr ⟨r, hr, rfl⟩
    rw [addTomorrow_map_date] at hmem
    obtain ⟨b, hb, hbd⟩ := List.mem_map.mp hmem
    simpa [← hbd] using hdates b hb
  rw [List.filter_eq_self.mpr hall, addTomorrow_length]

/-- Witness for `C5` amended on a single 2001-dated bar. -/
theorem clean_data_no_minimum_length_witness :
    (clean_data 0 [⟨366, 5⟩]).length = ([⟨366, 5⟩] : List Bar).length :=
  clean_data_no_minimum_length 0 [⟨366, 5⟩] (by decide)

/-- `C8` counterexample: the cleaning stage mutates the raw frame it was
given (six `del` statements plus two in-place column assignments), and
the feature stage mutates the cleaned frame (six in-place ratio-column
assignments): neither input is left unchanged. -/
theorem pipeline_mutation_cex :
    clean_data_colsAfter rawCols ≠ rawCols ∧
    add_predictors_colsAfter (clean_data_colsAfter rawCols) ≠
      clean_data_colsAfter rawCols := by
  decide

/-- `C8` amended: cleaning rewrites the caller's frame to exactly
`{Close, Tomorrow, Target}`, feature generation appends the six ratio
columns to the caller's frame, and only the backtesting stage leaves the
structure it received unchanged (it copies every train/test slice). -/
theorem pipeline_mutation_amended :
    clean_data_colsAfter rawCols = ["Close", "Tomorrow", "Target"] ∧
    add_predictors_colsAfter ["Close", "Tomorrow", "Target"] =
      ["Close", "Tomorrow", "Target"] ++ ratioCols ∧
    ∀ data : List FRow, backtest_dataAfter data = data := by
  refine ⟨by decide, by decide, fun _ => rfl⟩

/-- `C1`: a successful backtest output is exactly the window-by-window
concatenation in which the window starting at `i` predicts each row of
`data[i : i+step]` with the classifier fitted on `data.take i`, and
`data.take i` holds exactly the rows of `data` at indices `< i` — so no
test row's data reaches the model that predicts it. -/
theorem backtest_no_lookahead (C : List FRow → FRow → ℚ) (data : List FRow)
    (start step : Nat) (ps : List PredictionRow)
    (h : backtest C data start step = some ps) :
    ps = (windowStarts start data.length step).flatMap
      (fun i => ((data.drop i).take step).map
        (fun r => ⟨r.date, r.target, threshold_decision cutoff (C (data.take i) r)⟩)) ∧
    ∀ i ∈ windowStarts start data.length step,
      (data.take i).length ≤ i ∧ ∀ j, j < i → (data.take i)[j]? = data[j]? := by
  constructor
  · rw [backtest_eq_flatMap C data start step ps h]
    rfl
  · intro i _
    constructor
    · rw [List.length_take]
      exact min_le_left _ _
    · intro j hj
      rw [List.getElem?_take]
      exact if_pos hj

/-- Witness for `C1` on `dataA` with `start = 1`, `step = 1`. -/
theorem backtest_no_lookahead_witness :
    psA = (windowStarts 1 dataA.length 1).flatMap
      (fun i => ((dataA.drop i).take 1).map
        (fun r => ⟨r.date, r.target,
          threshold_decision cutoff (classifierA (dataA.take i) r)⟩)) ∧
    ∀ i ∈ windowStarts 1 dataA.length 1,
      (dataA.take i).length ≤ i ∧ ∀ j, j < i → (dataA.take i)[j]? = dataA[j]? :=
  backtest_no_lookahead classifierA dataA 1 1 psA (by decide)

/-- The shape of the cleaned rows for a series ending in bar `b`: a front
whose dates are those of the earlier bars, then the final bar with NaN
tomorrow and target `0` (the NaN comparison is `False`, cast to `0`). -/
lemma addTomorrow_concat :
    ∀ (l : List Bar) (b : Bar), ∃ front : List CleanedRow,
      addTomorrow (l ++ [b]) = front ++ [⟨b.date, b.close, none, 0⟩] ∧
      front.map (fun r => r.date) = l.map (fun bar => bar.date)
  | [], b => ⟨[], by simp [addTomorrow, targetOf], rfl⟩
  | [a], b => by
      refine ⟨[⟨a.date, a.close, some b.close, targetOf (some b.close) a.close⟩],
        ?_, by simp⟩
      simp [addTomorrow, targetOf]
  | a :: a2 :: rest, b => by
      obtain ⟨front, hf, hd⟩ := addTomorrow_concat (a2 :: rest) b
      refine ⟨⟨a.date, a.close, some a2.close,
        targetOf (some a2.close) a.close⟩ :: front, ?_, by simp [hd]⟩
      have hshape : (a :: a2 :: rest) ++ [b] = a :: a2 :: (rest ++ [b]) := by simp
      rw [hshape]
      show ⟨a.date, a.close, some a2.close, targetOf (some a2.close) a.close⟩ ::
          addTomorrow (a2 :: (rest ++ [b])) = _
      rw [show a2 :: (rest ++ [b]) = (a2 :: rest) ++ [b] from rfl, hf]
      simp

/-- `C10`: on date-ascending bars, the final row of the cleaned series
always carries `tomorrow = NaN` and `target = 0` — the undefined
next-day comparison evaluates to `False` and is cast to integer `0`. -/
theorem clean_data_last_target_zero (floor : Nat) (bars : List Bar)
    (hsorted : List.Chain' (· ≤ ·) (bars.map (fun b => b.date)))
    (r : CleanedRow) (hlast : (clean_data floor bars).getLast? = some r) :
    r.tomorrow = none ∧ r.target = 0 := by
  rcases List.eq_nil_or_concat bars with hnil | ⟨l, b, hcat⟩
  · subst hnil
    simp [clean_data, addTomorrow] at hlast
  · rw [List.concat_eq_append] at hcat
    subst hcat
    obtain ⟨front, hf, hd⟩ := addTomorrow_concat l b
    unfold clean_data at hlast
    rw [hf, List.filter_append] at hlast
    by_cases hb : floor ≤ b.date
    · have hfil : List.filter (fun row => decide (floor ≤ row.date))
          [(⟨b.date, b.close, none, 0⟩ : CleanedRow)]
          = [(⟨b.date, b.close, none, 0⟩ : CleanedRow)] := by simp [hb]
      rw [hfil, List.getLast?_concat] at hlast
      cases hlast
      exact ⟨rfl, rfl⟩
    · exfalso
      have hble : b.date < floor := lt_of_not_le hb
      have hpair : List.Pairwise (· ≤ ·) (l.map (fun bar => bar.date) ++ [b.date]) := by
        rw [← List.chain'_iff_pairwise]
        simpa using hsorted
      have hlb : ∀ d ∈ l.map (fun bar => bar.date), d ≤ b.date := by
        intro d hdmem
        exact (List.pairwise_append.mp hpair).2.2 d hdmem b.date (by simp)
      have hfrontnil : List.filter (fun r => floor ≤ r.date) front = [] := by
        rw [List.filter_eq_nil_iff]
        intro x hx
        have hxd : x.date ∈ l.map (fun bar => bar.date) := by
          rw [← hd]
          exact List.mem_map.mpr ⟨x, hx, rfl⟩
        have := hlb x.date hxd
        simp only [decide_eq_true_eq]
        omega
      rw [hfrontnil] at hlast
      simp [hb] at hlast

/-- Witness for `C10` on a two-bar ascending series. -/
theorem clean_data_last_target_zero_witness :
    (⟨1, 7, none, 0⟩ : CleanedRow).tomorrow = none ∧
    (⟨1, 7, none, 0⟩ : CleanedRow).target = 0 :=
  clean_data_last_target_zero 0 [⟨0, 5⟩, ⟨1, 7⟩] (by simp)
    ⟨1, 7, none, 0⟩ (by decide)

/-- A contiguous slice of length `step` followed by the rest of the
suffix reassembles the whole suffix. -/
lemma take_chunk_append (D : List Nat) (i step : Nat) :
    (D.drop i).take step ++ D.drop (i + step) = D.drop i := by
  have h := List.take_append_drop step (D.drop i)
  rwa [List.drop_drop] at h

/-- Ascending order of `List.range`. -/
lemma chain'_le_range (n : Nat) : List.Chain' (· ≤ ·) (List.range n) :=
  List.chain'_iff_pairwise.mpr ((List.pairwise_lt_range n).imp le_of_lt)

/-- `C2`: with 1000 feature rows, `start = 700`, `step = 90`, the window
starts are exactly 700, 790, 880, 970 (test ranges `[700,790)`,
`[790,880)`, `[880,970)`, `[970,1000)`, pairwise non-overlapping since
consecutive starts are ≥ 90 apart), and the backtester emits exactly the
300 rows at indices 700..999 — in ascending date order when the input
is date-ascending. -/
theorem backtest_walkforward_coverage (C : List FRow → FRow → ℚ)
    (data : List FRow) (hlen : data.length = 1000)
    (hsorted : List.Chain' (· ≤ ·) (data.map (fun r => r.date))) :
    windowStarts 700 1000 90 = [700, 790, 880, 970] ∧
    List.Chain' (fun a b => a + 90 ≤ b) (windowStarts 700 1000 90) ∧
    ∃ ps, backtest C data 700 90 = some ps ∧
      ps.length = 300 ∧
      ps.map (fun p => p.date) = (data.map (fun r => r.date)).drop 700 ∧
      List.Chain' (· ≤ ·) (ps.map (fun p => p.date)) := by
  refine ⟨by decide, ?_, ?_⟩
  · rw [show windowStarts 700 1000 90 = [700, 790, 880, 970] from by decide]
    simp [List.chain'_cons]
  · have hws : windowStarts 700 data.length 90 = [700, 790, 880, 970] := by
      rw [hlen]; decide
    have hbt : backtest C data 700 90 =
        some ([predict C (data.take 700) ((data.drop 700).take 90),
               predict C (data.take 790) ((data.drop 790).take 90),
               predict C (data.take 880) ((data.drop 880).take 90),
               predict C (data.take 970) ((data.drop 970).take 90)].flatten) := by
      unfold backtest
      rw [hws]
      rfl
    set D := data.map (fun r => r.date) with hD
    have hDlen : D.length = 1000 := by rw [hD, List.length_map, hlen]
    have hwd : ∀ i : Nat,
        (predict C (data.take i) ((data.drop i).take 90)).map (fun p => p.date)
          = (D.drop i).take 90 := by
      intro i
      unfold predict
      rw [List.map_map, hD, ← List.map_drop, ← List.map_take]
      rfl
    have h970 : (D.drop 970).take 90 = D.drop 970 :=
      List.take_of_length_le (by rw [List.length_drop, hDlen]; omega)
    have h880 := take_chunk_append D 880 90
    have h790 := take_chunk_append D 790 90
    have h700 := take_chunk_append D 700 90
    norm_num at h880 h790 h700
    have hdates :
        ([predict C (data.take 700) ((data.drop 700).take 90),
          predict C (data.take 790) ((data.drop 790).take 90),
          predict C (data.take 880) ((data.drop 880).take 90),
          predict C (data.take 970) ((data.drop 970).take 90)].flatten).map
            (fun p => p.date) = D.drop 700 := by
      rw [List.map_flatten]
      simp only [List.map_cons, List.map_nil, hwd]
      rw [List.flatten, List.flatten, List.flatten, List.flatten, List.flatten]
      rw [List.append_nil, h970, h880, h790, h700]
    refine ⟨_, hbt, ?_, hdates, ?_⟩
    · have hlenps := congrArg List.length hdates
      rw [List.length_map, List.length_drop, hDlen] at hlenps
      omega
    · rw [hdates]
      exact hsorted.sublist (List.drop_sublist 700 D)

/-- Dates of `data1000` are `0..999`. -/
lemma data1000_dates : data1000.map (fun r => r.date) = List.range 1000 := by
  unfold data1000
  rw [List.map_map]
  exact List.map_id' _

set_option maxRecDepth 4000 in
/-- Witness for `C2` on `data1000` with a constant-probability model. -/
theorem backtest_walkforward_coverage_witness :
    windowStarts 700 1000 90 = [700, 790, 880, 970] ∧
    List.Chain' (fun a b => a + 90 ≤ b) (windowStarts 700 1000 90) ∧
    ∃ ps, backtest (fun _ _ => 0) data1000 700 90 = some ps ∧
      ps.length = 300 ∧
      ps.map (fun p => p.date) = (data1000.map (fun r => r.date)).drop 700 ∧
      List.Chain' (· ≤ ·) (ps.map (fun p => p.date)) :=
  backtest_walkforward_coverage (fun _ _ => 0) data1000
    (by simp [data1000]) (by rw [data1000_dates]; exact chain'_le_range 1000)

/-- Filtering `List.range` by a lower bound is the same as dropping the
prefix below the bound. -/
lemma range_filter_le (m n : Nat) :
    (List.range n).filter (fun k => m ≤ k) = (List.range n).drop m := by
  induction n with
  | zero => simp
  | succ n ih =>
      rw [List.range_succ, List.filter_append, ih,
        List.drop_append_eq_append_drop, List.length_range]
      by_cases h : m ≤ n
      · rw [Nat.sub_eq_zero_of_le h]
        simp [h]
      · rw [List.drop_eq_nil_of_le
          (show ([n] : List Nat).length ≤ m - n by
            simp only [List.length_cons, List.length_nil]
            omega)]
        simp [h]

/-- With positive closes and at least `b` observations available, the
rolling mean is positive, so the ratio feature at `k` is defined. -/
lemma ratioAt_isSome_of_pos (closes : List ℚ) (hpos : ∀ c ∈ closes, 0 < c)
    (b k : Nat) (hb : 0 < b) (hbk : b ≤ k + 1) (hk : k < closes.length) :
    ((ratioAt closes b k).isSome : Bool) = true := by
  have hlen : ((closes.drop (k + 1 - b)).take b).length = b := by
    rw [List.length_take, List.length_drop]
    omega
  have hwin : ((closes.drop (k + 1 - b)).take b) ≠ [] := by
    intro hnil
    rw [hnil] at hlen
    simp at hlen
    omega
  have hsum : 0 < ((closes.drop (k + 1 - b)).take b).sum :=
    List.sum_pos _
      (fun x hx => hpos x (List.mem_of_mem_drop (List.mem_of_mem_take hx))) hwin
  have hm : 0 < ((closes.drop (k + 1 - b)).take b).sum / (b : ℚ) := by
    apply div_pos hsum
    exact_mod_cast hb
  have hrm : rollingMean closes b k
      = some (((closes.drop (k + 1 - b)).take b).sum / (b : ℚ)) := by
    unfold rollingMean
    rw [if_pos hbk]
  have hne : ¬ (((closes.drop (k + 1 - b)).take b).sum / (b : ℚ) = 0 ∧
      closes.getD k 0 = 0) := by
    rintro ⟨h0, -⟩
    exact absurd h0 (ne_of_gt hm)
  simp only [ratioAt, hrm, if_neg hne, Option.isSome_some]

/-- Without `b` observations the rolling mean, hence the ratio, is NaN. -/
lemma ratioAt_none_of_lt (closes : List ℚ) (b k : Nat) (hbk : k + 1 < b) :
    ratioAt closes b k = none := by
  have hrm : rollingMean closes b k = none := by
    unfold rollingMean
    rw [if_neg (by omega)]
  simp only [ratioAt, hrm]

/-- On positive closes, row `k` survives the `dropna` of
`add_predictors` exactly when all 1260 observations of the largest
benchmark exist, i.e. when `k ≥ 1259`. -/
lemma frow_all_isSome_iff (rows : List CleanedRow)
    (hpos : ∀ r ∈ rows, 0 < r.close) (k : Nat) (hk : k < rows.length) :
    ((frowAt rows k).ratios.all Option.isSome = true) ↔ 1259 ≤ k := by
  unfold frowAt
  simp only [List.all_eq_true]
  constructor
  · intro hall
    by_contra hlt
    have hmem : ratioAt (rows.map (fun r => r.close)) 1260 k ∈
        benchmarks.map (fun b => ratioAt (rows.map (fun r => r.close)) b k) :=
      List.mem_map.mpr ⟨1260, by decide, rfl⟩
    have h1260 := hall _ hmem
    rw [ratioAt_none_of_lt _ _ _ (by omega)] at h1260
    simp at h1260
  · intro hge x hx
    obtain ⟨b, hbmem, rfl⟩ := List.mem_map.mp hx
    have hb2 : 2 ≤ b ∧ b ≤ 1260 := by fin_cases hbmem <;> norm_num
    apply ratioAt_isSome_of_pos
    · intro c hc
      obtain ⟨r, hr, rfl⟩ := List.mem_map.mp hc
      exact hpos r hr
    · omega
    · omega
    · rw [List.length_map]
      exact hk

/-- Reading a list through `getD` along a dropped index range is the
dropped image of the list. -/
lemma map_getD_drop {α β : Type} (l : List α) (d : α) (f : α → β) (start : Nat) :
    ((List.range l.length).drop start).map (fun k => f (l.getD k d))
      = (l.map f).drop start := by
  apply List.ext_get
  · simp
  · intro n h1 h2
    have hn : start + n < l.length := by
      have := h1
      simp [List.length_drop, List.length_range] at this
      omega
    simp only [List.get_eq_getElem, List.getElem_map, List.getElem_drop,
      List.getElem_range, List.getD_eq_getElem l d hn]

/-- `C6` counterexample: a cleaned series of length 1 produces an empty
feature sequence — there is no first row at index `H-1 = 1259`, and the
output is shorter than the input by only 1 row, not by at least 1259. -/
theorem add_predictors_short_input_cex :
    (add_predictors [⟨0, 5, none, 0⟩]).1 = [] ∧
    ¬ (1259 ≤ ([⟨0, 5, none, 0⟩] : List CleanedRow).length
        - (add_predictors [⟨0, 5, none, 0⟩]).1.length) := by
  exact ⟨rfl, by decide⟩

/-- `C6` amended: for a cleaned series of length ≥ 1260 with positive
closes, the feature output is exactly the rows from index `H-1 = 1259`
on: no earlier row appears, the first row is the one at index 1259, the
output is shorter by exactly 1259 rows, and the dates are the input
dates from position 1259 on — contiguous, gap-free, and ascending
whenever the input is ascending. -/
theorem add_predictors_boundary (rows : List CleanedRow)
    (hlen : 1260 ≤ rows.length) (hpos : ∀ r ∈ rows, 0 < r.close) :
    (add_predictors rows).1 = ((List.range rows.length).drop 1259).map (frowAt rows) ∧
    (add_predictors rows).1.map (fun fr => fr.date)
      = (rows.map (fun r => r.date)).drop 1259 ∧
    (add_predictors rows).1.length + 1259 = rows.length ∧
    (add_predictors rows).1.head? = some (frowAt rows 1259) ∧
    (List.Chain' (· ≤ ·) (rows.map (fun r => r.date)) →
      List.Chain' (· ≤ ·) ((add_predictors rows).1.map (fun fr => fr.date))) := by
  have hmain : (add_predictors rows).1
      = ((List.range rows.length).drop 1259).map (frowAt rows) := by
    show ((List.range rows.length).map (frowAt rows)).filter
        (fun fr => fr.ratios.all Option.isSome) = _
    rw [List.filter_map]
    have hcongr : (List.range rows.length).filter
        ((fun fr => fr.ratios.all Option.isSome) ∘ frowAt rows)
        = (List.range rows.length).filter (fun k => 1259 ≤ k) := by
      apply List.filter_congr
      intro k hk
      have hkn : k < rows.length := List.mem_range.mp hk
      simp only [Function.comp_apply]
      by_cases h : 1259 ≤ k
      · rw [(frow_all_isSome_iff rows hpos k hkn).mpr h]
        simp [h]
      · have hne : ¬ ((frowAt rows k).ratios.all Option.isSome = true) :=
          fun hx => h ((frow_all_isSome_iff rows hpos k hkn).mp hx)
        rw [Bool.not_eq_true] at hne
        rw [hne]
        simp [h]
    rw [hcongr, range_filter_le]
  have hdates : (add_predictors rows).1.map (fun fr => fr.date)
      = (rows.map (fun r => r.date)).drop 1259 := by
    rw [hmain, List.map_map]
    exact map_getD_drop rows ⟨0, 0, none, 0⟩ (fun r => r.date) 1259
  refine ⟨hmain, hdates, ?_, ?_, ?_⟩
  · have hlens := congrArg List.length hmain
    rw [List.length_map, List.length_drop, List.length_range] at hlens
    rw [hlens]
    omega
  · rw [hmain, List.head?_map, List.head?_drop, List.getElem?_range (by omega)]
    rfl
  · intro hs
    rw [hdates]
    exact hs.sublist (List.drop_sublist 1259 _)

set_option maxRecDepth 8000 in
/-- Witness for `C6` amended on `rows1260`. -/
theorem add_predictors_boundary_witness :
    (add_predictors rows1260).1
      = ((List.range rows1260.length).drop 1259).map (frowAt rows1260) ∧
    (add_predictors rows1260).1.map (fun fr => fr.date)
      = (rows1260.map (fun r => r.date)).drop 1259 ∧
    (add_predictors rows1260).1.length + 1259 = rows1260.length ∧
    (add_predictors rows1260).1.head? = some (frowAt rows1260 1259) ∧
    (List.Chain' (· ≤ ·) (rows1260.map (fun r => r.date)) →
      List.Chain' (· ≤ ·) ((add_predictors rows1260).1.map (fun fr => fr.date))) :=
  add_predictors_boundary rows1260 (by simp [rows1260])
    (by
      intro r hr
      obtain ⟨k, -, rfl⟩ := List.mem_map.mp hr
      norm_num)

end StockFunctions
